import Mathlib

/-
Verification of the dynamic prefetching cache against its specification.

The repository ships the engine's test suite, examples and scripts; the
package `dynamic_prefetching_cache` itself (cache.py, types.py, providers.py,
predictors.py) is not among the available sources.  The engine is therefore
modelled from the specification (spec.md), with the unit tests under
src/tests/ pinning concrete behaviour where they exercise it directly
(conftest.py instruments the mock provider with `load_calls` and the mock
predictor with `call_history`; the model keeps the same logs).

The model is sequential: it covers the synchronous request path (`get`),
the store with likelihood-aware eviction, history maintenance and the
scheduler's queue rebuild.  The background worker thread is not modelled;
none of the properties proved here depend on worker interleavings.
-/

namespace DynamicPrefetchingCache

/-- Keys are signed integers (spec section 3). -/
abbrev Key := Int

/-- Modelled from the spec: `dynamic_prefetching_cache/types.py` is missing
from the sources.  A cache entry pairs the loaded value with its insertion
timestamp (spec section 3); Python float timestamps are modelled as rationals. -/
structure CacheEntry (V : Type) where
  data : V
  timestamp : Rat
deriving DecidableEq

/-- Modelled from the spec: `CacheEntry` construction in the missing
`types.py` auto-assigns the current time when no timestamp is supplied
(spec section 3: "auto-assigned at construction if not supplied");
test_types.py test_cache_entry_creation pins that passing `0` triggers the
auto-assignment while a nonzero timestamp is stored unchanged.  The ambient
clock reading is passed in explicitly as `now`. -/
def CacheEntry.create {V : Type} (data : V) (ts now : Rat) : CacheEntry V :=
  if ts = 0 then ⟨data, now⟩ else ⟨data, ts⟩

/-- Modelled from the spec: `PrefetchTask` lives in the missing `types.py`.
Fields per spec section 3; the stored `priority` is the negated likelihood
score (more negative = more urgent), as pinned by test_types.py
test_prefetch_task_comparison. -/
structure PrefetchTask where
  priority : Rat
  key : Key
deriving DecidableEq

/-- The comparison used for heap ordering of prefetch tasks.  Pinned by
test_types.py test_prefetch_task_comparison: it compares the stored
priorities only; two tasks of equal priority are mutually unordered,
whatever their keys. -/
def PrefetchTask.lt (a b : PrefetchTask) : Bool :=
  decide (a.priority < b.priority)

/-- The cache store: a finite map from keys to entries, modelled as an
association list in insertion order (spec section 4.1). -/
abbrev Store (V : Type) := List (Key × CacheEntry V)

/-- An ephemeral likelihood map returned by a predictor (spec section 3). -/
abbrev Likelihoods := List (Key × Rat)

/-- First-match lookup in the store (spec section 4.1 `lookup`). -/
def storeLookup {V : Type} : Store V → Key → Option (CacheEntry V)
  | [], _ => none
  | (k', e) :: rest, k => if k' = k then some e else storeLookup rest k

/-- Remove every binding of a key (spec section 4.1 `evict`; a no-op on a
missing key). -/
def storeErase {V : Type} : Store V → Key → Store V
  | [], _ => []
  | (k', e) :: rest, k =>
      if k' = k then storeErase rest k else (k', e) :: storeErase rest k

/-- Insert a binding, overwriting any existing entry for the key
(spec section 4.1 `insert`). -/
def storeInsert {V : Type} (s : Store V) (k : Key) (e : CacheEntry V) : Store V :=
  storeErase s k ++ [(k, e)]

/-- Likelihood of a key under a likelihood map, defaulting to 0 for absent
keys (spec section 4.2: `likelihoods.get(k, 0)`). -/
def lget : Likelihoods → Key → Rat
  | [], _ => 0
  | (k', v) :: rest, k => if k' = k then v else lget rest k

/-- Fold selecting the entry a boolean preference relation likes best;
`none` exactly on the empty list. -/
def pickMinBy {α : Type} (better : α → α → Bool) : List α → Option α
  | [] => none
  | x :: xs => some (xs.foldl (fun acc y => if better y acc then y else acc) x)

/-- Preference used by the Oldest policy: strictly smaller timestamp wins,
ties go to the lower key (spec section 4.2). -/
def betterOldest {V : Type} (a b : Key × CacheEntry V) : Bool :=
  if a.2.timestamp < b.2.timestamp then true
  else if b.2.timestamp < a.2.timestamp then false
  else decide (a.1 < b.1)

/-- Modelled from the spec: the `EvictionPolicyOldest` of the missing
`types.py` (spec section 4.2): victim = key with the smallest insertion
timestamp, ties broken by the lowest key; likelihoods are ignored. -/
def EvictionPolicyOldest {V : Type} (s : Store V) (_L : Likelihoods) : Option Key :=
  (pickMinBy betterOldest s).map Prod.fst

/-- Modelled from the spec: `EvictionPolicyLargest` of the missing
`types.py` (spec section 4.2): victim = key whose value has the greatest
size estimate, ties broken by the lowest key.  The size estimate is a
parameter. -/
def EvictionPolicyLargest {V : Type} (size : V → Nat) (s : Store V) (_L : Likelihoods) :
    Option Key :=
  (pickMinBy (fun a b =>
    if size b.2.data < size a.2.data then true
    else if size a.2.data < size b.2.data then false
    else decide (a.1 < b.1)) s).map Prod.fst

/-- Modelled from the spec: `EvictionPolicySmallest` of the missing
`types.py` (spec section 4.2), symmetric to Largest. -/
def EvictionPolicySmallest {V : Type} (size : V → Nat) (s : Store V) (_L : Likelihoods) :
    Option Key :=
  (pickMinBy (fun a b =>
    if size a.2.data < size b.2.data then true
    else if size b.2.data < size a.2.data then false
    else decide (a.1 < b.1)) s).map Prod.fst

/-- Modelled from the spec: the likelihood-aware wrapper of the missing
`types.py` (spec section 4.2): restrict the victim pool to the cached keys of
minimal likelihood (missing keys scoring 0), then let the base policy break
ties. -/
def likelihoodAware {V : Type} (base : Store V → Likelihoods → Option Key)
    (s : Store V) (L : Likelihoods) : Option Key :=
  base (s.filter (fun p => decide (∀ q ∈ s, lget L p.1 ≤ lget L q.1))) L

/-- Configuration bounds of a cache instance (spec section 6), after
validation. -/
structure CacheConfig where
  maxKeysCached : Nat
  maxKeysPrefetched : Nat
  historySize : Nat
deriving DecidableEq

/-- Modelled from the spec: constructor validation of the missing
`cache.py` (spec section 7: "Misconfiguration (zero or negative bounds):
rejected at construction").  The raw integer options are checked and the
validated configuration is returned. -/
def mkCacheConfig (maxKeysCached maxKeysPrefetched historySize : Int) :
    Except String CacheConfig :=
  if maxKeysCached ≤ 0 then Except.error "max_keys_cached must be positive"
  else if maxKeysPrefetched ≤ 0 then Except.error "max_keys_prefetched must be positive"
  else if historySize ≤ 0 then Except.error "history_size must be positive"
  else Except.ok ⟨maxKeysCached.toNat, maxKeysPrefetched.toNat, historySize.toNat⟩

/-- Modelled from the spec: the mutable state of the missing `cache.py`.
Counters per spec section 3 (`CacheMetrics`); `providerCalls` and
`predictorCalls` are instrumentation logs mirroring `load_calls` and
`call_history` of the mocks in src/tests/conftest.py; `clock` is the
monotonic timestamp source. -/
structure CacheState (V : Type) where
  store : Store V
  hits : Nat
  misses : Nat
  evictions : Nat
  prefetchErrors : Nat
  history : List Key
  queue : List PrefetchTask
  clock : Int
  providerCalls : List Key
  predictorCalls : List (Key × List Key)

/-- The state of a freshly constructed cache: empty store, zeroed counters. -/
def initState (V : Type) : CacheState V :=
  ⟨[], 0, 0, 0, 0, [], [], 0, [], []⟩

/-- Modelled from the spec: access-history maintenance (spec section 3:
"Each `get` appends; oldest entries drop when full", capacity `H`). -/
def historyPush (H : Nat) (h : List Key) (k : Key) : List Key :=
  let h2 := h ++ [k]
  if H < h2.length then h2.drop (h2.length - H) else h2

/-- Total order used to lay out one rebuilt queue deterministically:
ascending stored priority (descending urgency), ties by ascending key.
This fixes the deterministic tie layout within one reconciliation
(spec section 3 and section 4.3). -/
def taskLE (a b : PrefetchTask) : Bool :=
  decide (a.priority < b.priority ∨ (a.priority = b.priority ∧ a.key ≤ b.key))

/-- Insertion into a `taskLE`-sorted list. -/
def insertTask (t : PrefetchTask) : List PrefetchTask → List PrefetchTask
  | [] => [t]
  | x :: xs => if taskLE t x then t :: x :: xs else x :: insertTask t xs

/-- Insertion sort of prefetch tasks by `taskLE`. -/
def sortTasks (ts : List PrefetchTask) : List PrefetchTask :=
  ts.foldr insertTask []

/-- Modelled from the spec: scheduler step 1 of the missing `cache.py`
(spec section 4.3): discard from the predictor output any key already cached
or equal to the current key. -/
def filterLikelihoods {V : Type} (L : Likelihoods) (s : Store V) (c : Key) : Likelihoods :=
  L.filter (fun p => decide (p.1 ≠ c) && (storeLookup s p.1).isNone)

/-- Modelled from the spec: queue reconciliation of the missing `cache.py`
(spec section 4.3).  The queue is rebuilt from the filtered likelihood map:
one task per candidate with the negated score as stored priority, laid out
by `taskLE` and trimmed to the `max_keys_prefetched` highest scores (steps 2
and 3).  The incremental-sync fast path differs from the full rebuild only
in which tasks are reused; no property settled here depends on that
distinction, so the rebuild is modelled uniformly. -/
def rebuildQueue (cfg : CacheConfig) (L : Likelihoods) : List PrefetchTask :=
  (sortTasks (L.map (fun p => ⟨-p.2, p.1⟩))).take cfg.maxKeysPrefetched

/-- Modelled from the spec: the scheduler invocation of the missing
`cache.py` (spec section 4.3, section 4.5 steps 2 and 5): recompute the queue
from the likelihoods computed for this `get`. -/
def schedule {V : Type} (cfg : CacheConfig) (st : CacheState V) (c : Key)
    (L : Likelihoods) : CacheState V :=
  { st with queue := rebuildQueue cfg (filterLikelihoods L st.store c) }

/-- Modelled from the spec: insertion discipline of the missing `cache.py`
(spec section 4.1 and section 4.5 step 4): insert the freshly loaded entry,
then, if the store exceeds `max_keys_cached`, perform exactly one eviction
through the likelihood-aware wrapper around the default Oldest policy.
Per spec section 4.1 the policy picks the victim among the other entries;
it returns the just-inserted key only when `max_keys_cached = 0`
(candidates empty), in which case the insertion is undone. -/
def insertAndEvict {V : Type} (cfg : CacheConfig) (st : CacheState V) (k : Key)
    (v : V) (L : Likelihoods) : CacheState V :=
  let s1 := storeInsert st.store k ⟨v, mkRat st.clock 1⟩
  let st1 := { st with store := s1, clock := st.clock + 1 }
  if cfg.maxKeysCached < s1.length then
    match likelihoodAware EvictionPolicyOldest (storeErase s1 k) L with
    | some victim =>
        { st1 with store := storeErase s1 victim, evictions := st1.evictions + 1 }
    | none => { st1 with store := st.store }
  else st1

/-- Modelled from the spec: the synchronous request path `get` of the
missing `cache.py` (spec section 4.5).  Steps in order: push the key onto
the history; on a hit count it, reconcile the queue and return the cached
value; on a miss count it, load from the provider (propagating its error
with the store untouched), insert under the eviction discipline, reconcile
the queue and return.  The likelihoods are computed once per call and
passed to both the eviction wrapper and the scheduler (spec section 9).
The provider and predictor calls are logged as in the conftest.py mocks. -/
def get {V : Type} (cfg : CacheConfig) (provider : Key → Except String V)
    (predictor : Key → List Key → Likelihoods) (st : CacheState V) (k : Key) :
    Except String V × CacheState V :=
  let h := historyPush cfg.historySize st.history k
  match storeLookup st.store k with
  | some e =>
      let L := predictor k h
      let st1 := { st with history := h, hits := st.hits + 1,
                           predictorCalls := st.predictorCalls ++ [(k, h)] }
      (Except.ok e.data, schedule cfg st1 k L)
  | none =>
      let st1 := { st with history := h, misses := st.misses + 1,
                           providerCalls := st.providerCalls ++ [k] }
      match provider k with
      | Except.error err => (Except.error err, st1)
      | Except.ok v =>
          let L := predictor k h
          let st2 := { st1 with predictorCalls := st1.predictorCalls ++ [(k, h)] }
          (Except.ok v, schedule cfg (insertAndEvict cfg st2 k v L) k L)

/-- Run a sequence of `get` calls, returning the final state. -/
def runGets {V : Type} (cfg : CacheConfig) (provider : Key → Except String V)
    (predictor : Key → List Key → Likelihoods) :
    CacheState V → List Key → CacheState V
  | st, [] => st
  | st, k :: ks => runGets cfg provider predictor (get cfg provider predictor st k).2 ks

/-- Run a sequence of `get` calls, returning the final state together with
the number of calls that returned successfully. -/
def runGetsCounting {V : Type} (cfg : CacheConfig) (provider : Key → Except String V)
    (predictor : Key → List Key → Likelihoods) :
    CacheState V → List Key → CacheState V × Nat
  | st, [] => (st, 0)
  | st, k :: ks =>
      let r := get cfg provider predictor st k
      let rest := runGetsCounting cfg provider predictor r.2 ks
      (rest.1, (match r.1 with | Except.ok _ => 1 | Except.error _ => 0) + rest.2)

/-! ### Store lemmas -/

theorem storeLookup_append {V : Type} (s t : Store V) (k : Key) :
    storeLookup (s ++ t) k =
      match storeLookup s k with
      | some e => some e
      | none => storeLookup t k := by
  induction s with
  | nil => simp [storeLookup]
  | cons p rest ih =>
      obtain ⟨k', e⟩ := p
      by_cases h : k' = k <;> simp [storeLookup, h, ih]

theorem storeLookup_erase_self {V : Type} (s : Store V) (k : Key) :
    storeLookup (storeErase s k) k = none := by
  induction s with
  | nil => rfl
  | cons p rest ih =>
      obtain ⟨k', e⟩ := p
      by_cases h : k' = k <;> simp [storeErase, storeLookup, h, ih]

theorem storeLookup_erase_ne {V : Type} (s : Store V) {j k : Key} (h : j ≠ k) :
    storeLookup (storeErase s j) k = storeLookup s k := by
  induction s with
  | nil => rfl
  | cons p rest ih =>
      obtain ⟨k', e⟩ := p
      by_cases h1 : k' = j
      · subst h1
        have hk : ¬(k' = k) := h
        simp [storeErase, storeLookup, hk, ih]
      · by_cases h2 : k' = k
        · subst h2
          simp [storeErase, storeLookup, h1, ih]
        · simp [storeErase, storeLookup, h1, h2, ih]

theorem storeLookup_insert_self {V : Type} (s : Store V) (k : Key) (e : CacheEntry V) :
    storeLookup (storeInsert s k e) k = some e := by
  unfold storeInsert
  rw [storeLookup_append, storeLookup_erase_self]
  simp [storeLookup]

theorem storeErase_of_lookup_none {V : Type} {s : Store V} {k : Key}
    (h : storeLookup s k = none) : storeErase s k = s := by
  induction s with
  | nil => rfl
  | cons p rest ih =>
      obtain ⟨k', e⟩ := p
      by_cases h1 : k' = k
      · simp [storeLookup, h1] at h
      · simp [storeLookup, h1] at h
        simp [storeErase, h1, ih h]

theorem storeErase_append {V : Type} (s t : Store V) (k : Key) :
    storeErase (s ++ t) k = storeErase s k ++ storeErase t k := by
  induction s with
  | nil => rfl
  | cons p rest ih =>
      obtain ⟨k', e⟩ := p
      by_cases h : k' = k <;> simp [storeErase, h, ih]

theorem storeLookup_eq_none_iff {V : Type} (s : Store V) (k : Key) :
    storeLookup s k = none ↔ k ∉ s.map Prod.fst := by
  induction s with
  | nil => simp [storeLookup]
  | cons p rest ih =>
      obtain ⟨k', e⟩ := p
      by_cases h : k' = k
      · subst h
        simp [storeLookup]
      · have h' : ¬(k = k') := fun hh => h hh.symm
        simp [storeLookup, h, h', ih]

theorem mem_keys_erase {V : Type} {s : Store V} {j k : Key}
    (h : j ∈ (storeErase s k).map Prod.fst) :
    j ∈ s.map Prod.fst ∧ j ≠ k := by
  induction s with
  | nil => simp [storeErase] at h
  | cons p rest ih =>
      obtain ⟨k', e⟩ := p
      by_cases h1 : k' = k
      · simp only [storeErase, if_pos h1] at h
        rcases ih h with ⟨hm, hne⟩
        exact ⟨by simp [hm], hne⟩
      · simp only [storeErase, if_neg h1, List.map_cons, List.mem_cons] at h
        rcases h with h | h
        · exact ⟨by simp [h], by simpa [h] using h1⟩
        · rcases ih h with ⟨hm, hne⟩
          exact ⟨by simp [hm], hne⟩

theorem length_erase_of_nodup {V : Type} {s : Store V} {j : Key}
    (hn : (s.map Prod.fst).Nodup) (hj : j ∈ s.map Prod.fst) :
    (storeErase s j).length + 1 = s.length := by
  induction s with
  | nil => simp at hj
  | cons p rest ih =>
      obtain ⟨k', e⟩ := p
      simp only [List.map_cons, List.nodup_cons] at hn
      simp only [List.map_cons, List.mem_cons] at hj
      by_cases h1 : k' = j
      · subst h1
        have : storeErase ((k', e) :: rest) k' = storeErase rest k' := by
          simp [storeErase]
        rw [this, storeErase_of_lookup_none ((storeLookup_eq_none_iff rest k').2 hn.1)]
        simp
      · rcases hj with hj | hj
        · exact (h1 hj.symm).elim
        · have h2 : storeErase ((k', e) :: rest) j = (k', e) :: storeErase rest j := by
            simp [storeErase, h1]
          rw [h2]
          have h3 := ih hn.2 hj
          simp only [List.length_cons]
          omega

/-! ### Victim selection lemmas -/

theorem foldl_pick_mem {α : Type} (better : α → α → Bool) :
    ∀ (ys : List α) (x : α),
      ys.foldl (fun acc y => if better y acc then y else acc) x ∈ x :: ys
  | [], _ => by simp
  | y :: ys, x => by
      simp only [List.foldl_cons]
      split
      · have := foldl_pick_mem better ys y
        simp only [List.mem_cons] at this ⊢
        tauto
      · have := foldl_pick_mem better ys x
        simp only [List.mem_cons] at this ⊢
        tauto

theorem pickMinBy_mem {α : Type} {better : α → α → Bool} {s : List α} {x : α}
    (h : pickMinBy better s = some x) : x ∈ s := by
  match s with
  | [] => simp [pickMinBy] at h
  | y :: ys =>
      simp only [pickMinBy, Option.some.injEq] at h
      rw [← h]
      exact foldl_pick_mem better ys y

theorem pickMinBy_of_ne_nil {α : Type} (better : α → α → Bool) {s : List α}
    (h : s ≠ []) : ∃ x, pickMinBy better s = some x := by
  match s with
  | [] => exact (h rfl).elim
  | y :: ys => exact ⟨_, rfl⟩

/-- Every nonempty list has an element minimizing a rational measure. -/
theorem exists_min_measure {α : Type} (f : α → Rat) :
    ∀ (l : List α), l ≠ [] → ∃ p ∈ l, ∀ q ∈ l, f p ≤ f q
  | [], h => (h rfl).elim
  | [x], _ => ⟨x, by simp, by simp⟩
  | x :: y :: ys, _ => by
      obtain ⟨p, hp, hmin⟩ := exists_min_measure f (y :: ys) (by simp)
      by_cases hle : f x ≤ f p
      · refine ⟨x, by simp, ?_⟩
        intro q hq
        rcases List.mem_cons.1 hq with rfl | hq
        · exact le_refl _
        · exact le_trans hle (hmin q hq)
      · refine ⟨p, List.mem_cons_of_mem x hp, ?_⟩
        intro q hq
        rcases List.mem_cons.1 hq with rfl | hq
        · exact le_of_not_le hle
        · exact hmin q hq

theorem likelihoodAware_oldest_isSome {V : Type} {s : Store V} (L : Likelihoods)
    (h : s ≠ []) : ∃ j, likelihoodAware EvictionPolicyOldest s L = some j := by
  obtain ⟨p, hp, hmin⟩ := exists_min_measure (fun q => lget L q.1) s h
  have hpool : p ∈ s.filter (fun p => decide (∀ q ∈ s, lget L p.1 ≤ lget L q.1)) := by
    rw [List.mem_filter]
    exact ⟨hp, by simpa using hmin⟩
  obtain ⟨x, hx⟩ :=
    pickMinBy_of_ne_nil (betterOldest (V := V)) (List.ne_nil_of_mem hpool)
  exact ⟨x.1, by simp [likelihoodAware, EvictionPolicyOldest, hx]⟩

theorem likelihoodAware_oldest_mem {V : Type} {s : Store V} {L : Likelihoods} {j : Key}
    (h : likelihoodAware EvictionPolicyOldest s L = some j) : j ∈ s.map Prod.fst := by
  simp only [likelihoodAware, EvictionPolicyOldest, Option.map_eq_some'] at h
  obtain ⟨x, hx, hxj⟩ := h
  have hmem := pickMinBy_mem hx
  rw [List.mem_filter] at hmem
  rw [← hxj]
  exact List.mem_map_of_mem Prod.fst hmem.1

/-! ### Bookkeeping of the scheduler, insertion and history -/

@[simp] theorem schedule_store {V : Type} (cfg : CacheConfig) (st : CacheState V)
    (c : Key) (L : Likelihoods) : (schedule cfg st c L).store = st.store := rfl

@[simp] theorem schedule_hits {V : Type} (cfg : CacheConfig) (st : CacheState V)
    (c : Key) (L : Likelihoods) : (schedule cfg st c L).hits = st.hits := rfl

@[simp] theorem schedule_misses {V : Type} (cfg : CacheConfig) (st : CacheState V)
    (c : Key) (L : Likelihoods) : (schedule cfg st c L).misses = st.misses := rfl

@[simp] theorem schedule_evictions {V : Type} (cfg : CacheConfig) (st : CacheState V)
    (c : Key) (L : Likelihoods) : (schedule cfg st c L).evictions = st.evictions := rfl

@[simp] theorem schedule_history {V : Type} (cfg : CacheConfig) (st : CacheState V)
    (c : Key) (L : Likelihoods) : (schedule cfg st c L).history = st.history := rfl

@[simp] theorem schedule_providerCalls {V : Type} (cfg : CacheConfig) (st : CacheState V)
    (c : Key) (L : Likelihoods) : (schedule cfg st c L).providerCalls = st.providerCalls := rfl

@[simp] theorem schedule_predictorCalls {V : Type} (cfg : CacheConfig) (st : CacheState V)
    (c : Key) (L : Likelihoods) : (schedule cfg st c L).predictorCalls = st.predictorCalls := rfl

@[simp] theorem insertAndEvict_hits {V : Type} (cfg : CacheConfig) (st : CacheState V)
    (k : Key) (v : V) (L : Likelihoods) : (insertAndEvict cfg st k v L).hits = st.hits := by
  simp only [insertAndEvict]
  split
  · split <;> rfl
  · rfl

@[simp] theorem insertAndEvict_misses {V : Type} (cfg : CacheConfig) (st : CacheState V)
    (k : Key) (v : V) (L : Likelihoods) : (insertAndEvict cfg st k v L).misses = st.misses := by
  simp only [insertAndEvict]
  split
  · split <;> rfl
  · rfl

@[simp] theorem insertAndEvict_history {V : Type} (cfg : CacheConfig) (st : CacheState V)
    (k : Key) (v : V) (L : Likelihoods) : (insertAndEvict cfg st k v L).history = st.history := by
  simp only [insertAndEvict]
  split
  · split <;> rfl
  · rfl

@[simp] theorem insertAndEvict_providerCalls {V : Type} (cfg : CacheConfig)
    (st : CacheState V) (k : Key) (v : V) (L : Likelihoods) :
    (insertAndEvict cfg st k v L).providerCalls = st.providerCalls := by
  simp only [insertAndEvict]
  split
  · split <;> rfl
  · rfl

@[simp] theorem insertAndEvict_predictorCalls {V : Type} (cfg : CacheConfig)
    (st : CacheState V) (k : Key) (v : V) (L : Likelihoods) :
    (insertAndEvict cfg st k v L).predictorCalls = st.predictorCalls := by
  simp only [insertAndEvict]
  split
  · split <;> rfl
  · rfl

/-- The entry just inserted survives the eviction step whenever the
capacity bound is positive: the victim is chosen among the other entries. -/
theorem insertAndEvict_lookup_self {V : Type} (cfg : CacheConfig) (st : CacheState V)
    (k : Key) (v : V) (L : Likelihoods) (hmax : 0 < cfg.maxKeysCached) :
    storeLookup (insertAndEvict cfg st k v L).store k = some ⟨v, mkRat st.clock 1⟩ := by
  have hcand : storeErase (storeInsert st.store k ⟨v, mkRat st.clock 1⟩) k
      = storeErase st.store k := by
    unfold storeInsert
    rw [storeErase_append,
        storeErase_of_lookup_none (storeLookup_erase_self st.store k)]
    simp [storeErase]
  simp only [insertAndEvict]
  split
  · rename_i hover
    split
    · rename_i victim hva
      have hne : victim ≠ k := by
        have hmem := likelihoodAware_oldest_mem hva
        rw [hcand] at hmem
        exact (mem_keys_erase hmem).2
      rw [storeLookup_erase_ne _ hne, storeLookup_insert_self]
    · rename_i hva
      exfalso
      have hnil : storeErase st.store k ≠ [] := by
        intro hemp
        have hlen : (storeInsert st.store k ⟨v, mkRat st.clock 1⟩).length = 1 := by
          unfold storeInsert
          rw [hemp]
          rfl
        rw [hlen] at hover
        omega
      rw [hcand] at hva
      obtain ⟨j, hj⟩ := likelihoodAware_oldest_isSome L hnil
      rw [hva] at hj
      exact Option.noConfusion hj
  · rw [storeLookup_insert_self]

/-- A bounded history never exceeds its capacity. -/
theorem historyPush_length_le (H : Nat) (h : List Key) (k : Key) :
    (historyPush H h k).length ≤ H := by
  simp only [historyPush]
  split
  · rename_i hlt
    simp only [List.length_drop]
    omega
  · rename_i hge
    simp only [List.length_append, List.length_cons, List.length_nil] at hge ⊢
    omega

/-- A bounded history is nonempty right after a push, provided the capacity
is positive. -/
theorem historyPush_length_pos (H : Nat) (h : List Key) (k : Key) (hH : 0 < H) :
    0 < (historyPush H h k).length := by
  simp only [historyPush]
  split
  · rename_i hlt
    simp only [List.length_drop]
    omega
  · simp

/-- The pushed history is a suffix of the appended sequence. -/
theorem historyPush_suffix (H : Nat) (h : List Key) (k : Key) :
    (historyPush H h k) <:+ (h ++ [k]) := by
  simp only [historyPush]
  split
  · exact ⟨(h ++ [k]).take ((h ++ [k]).length - H), List.take_append_drop _ _⟩
  · exact ⟨[], rfl⟩

/-- A nonempty suffix ends with the last element of the full list. -/
theorem getLast?_of_suffix {α : Type} {s l : List α} (h : s <:+ l) (hs : s ≠ []) :
    s.getLast? = l.getLast? := by
  obtain ⟨t, rfl⟩ := h
  induction t with
  | nil => rfl
  | cons a t ih =>
      rw [List.cons_append, List.getLast?_cons]
      rw [ih]
      have : t ++ s ≠ [] := by
        intro hemp
        exact hs (List.append_eq_nil.1 hemp).2
      match ht : t ++ s with
      | [] => exact (this ht).elim
      | b :: bs => simp [List.getLast?_cons]

/-- After a push the newest key sits at the end of the history. -/
theorem historyPush_getLast (H : Nat) (h : List Key) (k : Key) (hH : 0 < H) :
    (historyPush H h k).getLast? = some k := by
  have hne : historyPush H h k ≠ [] := by
    have := historyPush_length_pos H h k hH
    intro hemp
    rw [hemp] at this
    simp at this
  rw [getLast?_of_suffix (historyPush_suffix H h k) hne, List.getLast?_concat]

/-! ### Request-path lemmas -/

/-- A successful `get` leaves the requested key cached with the returned
value (the eviction step never removes the entry just inserted when the
capacity bound is positive). -/
theorem get_ok_lookup {V : Type} {cfg : CacheConfig} {provider : Key → Except String V}
    {predictor : Key → List Key → Likelihoods} {st st1 : CacheState V} {k : Key} {v : V}
    (hmax : 0 < cfg.maxKeysCached)
    (h : get cfg provider predictor st k = (Except.ok v, st1)) :
    ∃ e : CacheEntry V, storeLookup st1.store k = some e ∧ e.data = v := by
  cases h0 : storeLookup st.store k with
  | some e =>
      simp only [get, h0] at h
      rw [Prod.mk.injEq] at h
      obtain ⟨h1, h2⟩ := h
      refine ⟨e, ?_, (Except.ok.inj h1)⟩
      rw [← h2, schedule_store]
      exact h0
  | none =>
      cases hp : provider k with
      | error err =>
          simp only [get, h0, hp] at h
          rw [Prod.mk.injEq] at h
          exact Except.noConfusion h.1
      | ok v0 =>
          simp only [get, h0, hp] at h
          rw [Prod.mk.injEq] at h
          obtain ⟨h1, h2⟩ := h
          refine ⟨⟨v0, mkRat st.clock 1⟩, ?_, (Except.ok.inj h1)⟩
          rw [← h2, schedule_store]
          exact insertAndEvict_lookup_self cfg _ k v0 _ hmax

/-- Every `get` increments exactly one of the two lookup counters, whether
or not the provider load succeeds. -/
theorem get_hits_add_misses {V : Type} (cfg : CacheConfig) (provider : Key → Except String V)
    (predictor : Key → List Key → Likelihoods) (st : CacheState V) (k : Key) :
    (get cfg provider predictor st k).2.hits + (get cfg provider predictor st k).2.misses
      = st.hits + st.misses + 1 := by
  cases h0 : storeLookup st.store k with
  | some e =>
      simp only [get, h0, schedule_hits, schedule_misses]
      omega
  | none =>
      cases hp : provider k with
      | error err => simp only [get, h0, hp]; omega
      | ok v =>
          simp only [get, h0, hp, schedule_hits, schedule_misses,
            insertAndEvict_hits, insertAndEvict_misses]
          omega

theorem runGets_hits_add_misses {V : Type} (cfg : CacheConfig)
    (provider : Key → Except String V) (predictor : Key → List Key → Likelihoods) :
    ∀ (ks : List Key) (st : CacheState V),
      (runGets cfg provider predictor st ks).hits
        + (runGets cfg provider predictor st ks).misses
        = st.hits + st.misses + ks.length
  | [], st => by simp [runGets]
  | k :: ks, st => by
      rw [runGets, runGets_hits_add_misses cfg provider predictor ks]
      have := get_hits_add_misses cfg provider predictor st k
      simp only [List.length_cons]
      omega

/-! ### Concrete collaborators used by the literal spec scenarios
(mirroring MockDataProvider and MockAccessPredictor of conftest.py) -/

/-- A provider covering keys 1..3, failing elsewhere. -/
def mockProvider3 : Key → Except String Int := fun k =>
  if 1 ≤ k ∧ k ≤ 3 then Except.ok k else Except.error "Key not found"

/-- A provider whose backing data is empty: every load fails. -/
def failingProvider : Key → Except String Int := fun _ =>
  Except.error "Key not found"

/-- The conftest.py mock predictor's default answer:
one step ahead scores 0.8, two steps ahead 0.4. -/
def mockPredictorDefault : Key → List Key → Likelihoods := fun c _ =>
  [(c + 1, mkRat 4 5), (c + 2, mkRat 2 5)]

/-- The predictor of the likelihood-aware eviction scenario
(test_eviction_victim_selection): at current key 3 it scores key 1 low and
key 2 high, elsewhere it answers the mock default. -/
def mockPredictorEvict : Key → List Key → Likelihoods := fun c _ =>
  if c = 3 then [(1, mkRat 1 10), (2, mkRat 9 10)]
  else [(c + 1, mkRat 4 5), (c + 2, mkRat 2 5)]

/-- `max_keys_cached = 2`, other bounds at their defaults. -/
def cfg2 : CacheConfig := ⟨2, 16, 10⟩

/-- `max_keys_cached = 10`, other bounds at their defaults. -/
def cfg10 : CacheConfig := ⟨10, 16, 10⟩

/-! ### Claims -/

/-- C1: once `get k` has returned `v`, an immediately subsequent `get k`
(no eviction of `k` can intervene) returns the same `v`, increments the
hit counter by exactly one and performs no provider load. -/
theorem claim1_repeat_get_hits {V : Type} (cfg : CacheConfig)
    (provider : Key → Except String V) (predictor : Key → List Key → Likelihoods)
    (st st1 : CacheState V) (k : Key) (v : V)
    (hmax : 0 < cfg.maxKeysCached)
    (h : get cfg provider predictor st k = (Except.ok v, st1)) :
    (get cfg provider predictor st1 k).1 = Except.ok v ∧
    (get cfg provider predictor st1 k).2.hits = st1.hits + 1 ∧
    (get cfg provider predictor st1 k).2.providerCalls = st1.providerCalls := by
  obtain ⟨e, he, hed⟩ := get_ok_lookup hmax h
  refine ⟨?_, ?_, ?_⟩
  · simp only [get, he]
    rw [hed]
  · simp only [get, he, schedule_hits]
  · simp only [get, he, schedule_providerCalls]

/-- C1 witness: a concrete first `get` follows the miss path, the repeat
`get` is a hit with the same value and no provider call. -/
theorem claim1_witness :
    (0 < cfg10.maxKeysCached ∧
      get cfg10 mockProvider3 mockPredictorDefault (initState Int) 1
        = (Except.ok 1, (get cfg10 mockProvider3 mockPredictorDefault (initState Int) 1).2)) ∧
    ((get cfg10 mockProvider3 mockPredictorDefault
        (get cfg10 mockProvider3 mockPredictorDefault (initState Int) 1).2 1).1
          = Except.ok 1 ∧
      (get cfg10 mockProvider3 mockPredictorDefault
        (get cfg10 mockProvider3 mockPredictorDefault (initState Int) 1).2 1).2.hits
          = (get cfg10 mockProvider3 mockPredictorDefault (initState Int) 1).2.hits + 1 ∧
      (get cfg10 mockProvider3 mockPredictorDefault
        (get cfg10 mockProvider3 mockPredictorDefault (initState Int) 1).2 1).2.providerCalls
          = (get cfg10 mockProvider3 mockPredictorDefault (initState Int) 1).2.providerCalls) :=
  ⟨⟨by decide, by rfl⟩,
    claim1_repeat_get_hits cfg10 mockProvider3 mockPredictorDefault (initState Int)
      (get cfg10 mockProvider3 mockPredictorDefault (initState Int) 1).2 1 1
      (by decide) (by rfl)⟩

/-- C2: when the synchronous provider load fails on a miss, `get`
propagates the provider's error unchanged, leaves the store untouched
(nothing inserted, nothing evicted), and increments the miss counter
exactly once; the hit counter is unchanged. -/
theorem claim2_sync_load_error {V : Type} (cfg : CacheConfig)
    (provider : Key → Except String V) (predictor : Key → List Key → Likelihoods)
    (st : CacheState V) (k : Key) (err : String)
    (hmiss : storeLookup st.store k = none)
    (herr : provider k = Except.error err) :
    (get cfg provider predictor st k).1 = Except.error err ∧
    (get cfg provider predictor st k).2.store = st.store ∧
    (get cfg provider predictor st k).2.misses = st.misses + 1 ∧
    (get cfg provider predictor st k).2.hits = st.hits ∧
    (get cfg provider predictor st k).2.evictions = st.evictions := by
  refine ⟨?_, ?_, ?_, ?_, ?_⟩ <;> simp only [get, hmiss, herr]

/-- C2 witness: loading key 999 from the empty provider fails and is
propagated with the store unchanged and one recorded miss. -/
theorem claim2_witness :
    (storeLookup (initState Int).store 999 = none ∧
      failingProvider 999 = Except.error "Key not found") ∧
    ((get cfg10 failingProvider mockPredictorDefault (initState Int) 999).1
        = Except.error "Key not found" ∧
      (get cfg10 failingProvider mockPredictorDefault (initState Int) 999).2.store
        = (initState Int).store ∧
      (get cfg10 failingProvider mockPredictorDefault (initState Int) 999).2.misses
        = (initState Int).misses + 1 ∧
      (get cfg10 failingProvider mockPredictorDefault (initState Int) 999).2.hits
        = (initState Int).hits ∧
      (get cfg10 failingProvider mockPredictorDefault (initState Int) 999).2.evictions
        = (initState Int).evictions) :=
  ⟨⟨rfl, rfl⟩,
    claim2_sync_load_error cfg10 failingProvider mockPredictorDefault (initState Int)
      999 "Key not found" rfl rfl⟩

/-- C3 counterexample: one `get` whose provider load fails.  The call does
not return successfully, yet `hits + misses = 1`: the counter sum equals
the number of calls, not the number of successful calls. -/
theorem claim3_counterexample :
    (runGets cfg10 failingProvider mockPredictorDefault (initState Int) [999]).hits
        + (runGets cfg10 failingProvider mockPredictorDefault (initState Int) [999]).misses
      = 1 ∧
    (runGetsCounting cfg10 failingProvider mockPredictorDefault (initState Int) [999]).2
      = 0 := ⟨rfl, rfl⟩

/-- C3 (amended): after any sequence of `get` calls, `hits + misses`
equals the total number of calls — each call increments exactly one of the
two counters, also when the provider load fails and the call raises
(spec section 7: the miss counter stays incremented on failure). -/
theorem claim3_hits_misses_count_calls {V : Type} (cfg : CacheConfig)
    (provider : Key → Except String V) (predictor : Key → List Key → Likelihoods)
    (ks : List Key) :
    (runGets cfg provider predictor (initState V) ks).hits
      + (runGets cfg provider predictor (initState V) ks).misses = ks.length := by
  rw [runGets_hits_add_misses]
  simp [initState]

/-- Erasing the key just inserted reduces to erasing it from the original
store. -/
theorem storeErase_insert_self {V : Type} (s : Store V) (k : Key) (e : CacheEntry V) :
    storeErase (storeInsert s k e) k = storeErase s k := by
  unfold storeInsert
  rw [storeErase_append, storeErase_of_lookup_none (storeLookup_erase_self s k)]
  simp [storeErase]

/-- C4: with `max_keys_cached = 2` and the predictor scoring key 1 at 0.1
and key 2 at 0.9 from current key 3, the run `get 1; get 2; get 3` evicts
key 1 — the cached key of minimal likelihood — and keeps keys 2 and 3. -/
theorem claim4_likelihood_aware_victim :
    storeLookup (runGets cfg2 mockProvider3 mockPredictorEvict
        (initState Int) [1, 2, 3]).store 1 = none ∧
    (storeLookup (runGets cfg2 mockProvider3 mockPredictorEvict
        (initState Int) [1, 2, 3]).store 2).isSome = true ∧
    (storeLookup (runGets cfg2 mockProvider3 mockPredictorEvict
        (initState Int) [1, 2, 3]).store 3).isSome = true ∧
    (runGets cfg2 mockProvider3 mockPredictorEvict
        (initState Int) [1, 2, 3]).evictions = 1 := by
  refine ⟨by decide, by decide, by decide, by decide⟩

/-- The concrete at-capacity store used to witness the general part of C5:
one cached entry under key 0. -/
def stateAtCapacity : CacheState Int :=
  ⟨[(0, ⟨5, 0⟩)], 0, 0, 0, 0, [], [], 1, [], []⟩

/-- C5: the literal eviction-under-pressure scenario — provider covering
keys 1..3, `max_keys_cached = 2`, run `get 1; get 2; get 3` — ends with
`cache_keys = 2`, `evictions = 1`, `misses = 3`, `hits = 0`; and in
general an insertion into a store at capacity (key fresh, keys distinct)
performs exactly one eviction and restores the bound, while an insertion
below capacity evicts nothing. -/
theorem claim5_one_eviction_per_overflow :
    ((runGets cfg2 mockProvider3 mockPredictorDefault
        (initState Int) [1, 2, 3]).store.length = 2 ∧
     (runGets cfg2 mockProvider3 mockPredictorDefault
        (initState Int) [1, 2, 3]).evictions = 1 ∧
     (runGets cfg2 mockProvider3 mockPredictorDefault
        (initState Int) [1, 2, 3]).misses = 3 ∧
     (runGets cfg2 mockProvider3 mockPredictorDefault
        (initState Int) [1, 2, 3]).hits = 0) ∧
    (∀ (V : Type) (cfg : CacheConfig) (st : CacheState V) (k : Key) (v : V)
        (L : Likelihoods),
      0 < cfg.maxKeysCached →
      (st.store.map Prod.fst).Nodup →
      storeLookup st.store k = none →
      st.store.length = cfg.maxKeysCached →
      (insertAndEvict cfg st k v L).evictions = st.evictions + 1 ∧
      (insertAndEvict cfg st k v L).store.length = cfg.maxKeysCached) ∧
    (∀ (V : Type) (cfg : CacheConfig) (st : CacheState V) (k : Key) (v : V)
        (L : Likelihoods),
      storeLookup st.store k = none →
      st.store.length < cfg.maxKeysCached →
      (insertAndEvict cfg st k v L).evictions = st.evictions) := by
  refine ⟨⟨by decide, by decide, by decide, by decide⟩, ?_, ?_⟩
  · intro V cfg st k v L hmax hnodup hmiss hcap
    have hins : storeInsert st.store k ⟨v, mkRat st.clock 1⟩
        = st.store ++ [(k, ⟨v, mkRat st.clock 1⟩)] := by
      unfold storeInsert
      rw [storeErase_of_lookup_none hmiss]
    have hlen1 : (storeInsert st.store k ⟨v, mkRat st.clock 1⟩).length
        = cfg.maxKeysCached + 1 := by
      rw [hins]
      simp [hcap]
    have hover : cfg.maxKeysCached < (storeInsert st.store k ⟨v, mkRat st.clock 1⟩).length := by
      omega
    have hcand : storeErase (storeInsert st.store k ⟨v, mkRat st.clock 1⟩) k = st.store := by
      rw [storeErase_insert_self, storeErase_of_lookup_none hmiss]
    have hne : st.store ≠ [] := by
      intro hemp
      rw [hemp] at hcap
      simp at hcap
      omega
    obtain ⟨j, hj⟩ := likelihoodAware_oldest_isSome L hne
    have hjmem : j ∈ st.store.map Prod.fst := likelihoodAware_oldest_mem hj
    have hkmem : k ∉ st.store.map Prod.fst := (storeLookup_eq_none_iff _ _).1 hmiss
    have hjk : j ≠ k := fun hh => hkmem (hh ▸ hjmem)
    have hkj : ¬(k = j) := fun hh => hjk hh.symm
    simp only [insertAndEvict]
    rw [if_pos hover, hcand, hj]
    refine ⟨rfl, ?_⟩
    have herase : storeErase (storeInsert st.store k ⟨v, mkRat st.clock 1⟩) j
        = storeErase st.store j ++ [(k, ⟨v, mkRat st.clock 1⟩)] := by
      rw [hins, storeErase_append]
      congr 1
      simp [storeErase, hkj]
    have hlen2 := length_erase_of_nodup hnodup hjmem
    simp only [herase, List.length_append, List.length_cons, List.length_nil]
    omega
  · intro V cfg st k v L hmiss hlt
    have hins : storeInsert st.store k ⟨v, mkRat st.clock 1⟩
        = st.store ++ [(k, ⟨v, mkRat st.clock 1⟩)] := by
      unfold storeInsert
      rw [storeErase_of_lookup_none hmiss]
    have hle : ¬(cfg.maxKeysCached < (storeInsert st.store k ⟨v, mkRat st.clock 1⟩).length) := by
      rw [hins]
      simp only [List.length_append, List.length_cons, List.length_nil]
      omega
    simp only [insertAndEvict]
    rw [if_neg hle]

/-- C5 witness: inserting a fresh key into a store at capacity 1 evicts
exactly one entry, and inserting below capacity 2 evicts nothing. -/
theorem claim5_witness :
    ((insertAndEvict (⟨1, 16, 10⟩ : CacheConfig) stateAtCapacity 1 7 []).evictions = 1 ∧
     (insertAndEvict (⟨1, 16, 10⟩ : CacheConfig) stateAtCapacity 1 7 []).store.length = 1) ∧
    (insertAndEvict (⟨2, 16, 10⟩ : CacheConfig) stateAtCapacity 1 7 []).evictions = 0 :=
  ⟨claim5_one_eviction_per_overflow.2.1 Int ⟨1, 16, 10⟩ stateAtCapacity 1 7 []
      (by decide) (by decide) (by decide) (by decide),
    claim5_one_eviction_per_overflow.2.2 Int ⟨2, 16, 10⟩ stateAtCapacity 1 7 []
      (by decide) (by decide)⟩

/-! ### Order of prefetch tasks -/

theorem taskLE_total (a b : PrefetchTask) : taskLE a b = true ∨ taskLE b a = true := by
  simp only [taskLE, decide_eq_true_eq]
  rcases lt_trichotomy a.priority b.priority with h | h | h
  · exact Or.inl (Or.inl h)
  · rcases le_total a.key b.key with hk | hk
    · exact Or.inl (Or.inr ⟨h, hk⟩)
    · exact Or.inr (Or.inr ⟨h.symm, hk⟩)
  · exact Or.inr (Or.inl h)

theorem taskLE_trans (a b c : PrefetchTask) (h1 : taskLE a b = true)
    (h2 : taskLE b c = true) : taskLE a c = true := by
  simp only [taskLE, decide_eq_true_eq] at h1 h2 ⊢
  rcases h1 with h1 | ⟨h1, hk1⟩
  · rcases h2 with h2 | ⟨h2, _⟩
    · exact Or.inl (lt_trans h1 h2)
    · exact Or.inl (h2 ▸ h1)
  · rcases h2 with h2 | ⟨h2, hk2⟩
    · exact Or.inl (by rw [h1]; exact h2)
    · exact Or.inr ⟨h1.trans h2, le_trans hk1 hk2⟩

theorem taskLE_le {a b : PrefetchTask} (h : taskLE a b = true) :
    a.priority ≤ b.priority := by
  simp only [taskLE, decide_eq_true_eq] at h
  rcases h with h | ⟨h, _⟩
  · exact le_of_lt h
  · exact le_of_eq h

theorem mem_insertTask {t x : PrefetchTask} :
    ∀ {l : List PrefetchTask}, x ∈ insertTask t l → x = t ∨ x ∈ l
  | [], h => by
      simp only [insertTask, List.mem_singleton] at h
      exact Or.inl h
  | y :: ys, h => by
      simp only [insertTask] at h
      split at h
      · rcases List.mem_cons.1 h with rfl | h2
        · exact Or.inl rfl
        · exact Or.inr h2
      · rcases List.mem_cons.1 h with rfl | h2
        · exact Or.inr (List.mem_cons_self _ _)
        · rcases mem_insertTask h2 with rfl | h3
          · exact Or.inl rfl
          · exact Or.inr (List.mem_cons_of_mem _ h3)

theorem pairwise_insertTask (t : PrefetchTask) :
    ∀ (l : List PrefetchTask), List.Pairwise (fun a b => taskLE a b = true) l →
      List.Pairwise (fun a b => taskLE a b = true) (insertTask t l)
  | [], _ => by simp [insertTask]
  | x :: xs, h => by
      rw [List.pairwise_cons] at h
      obtain ⟨hx, hxs⟩ := h
      simp only [insertTask]
      split
      · rename_i hle
        rw [List.pairwise_cons]
        refine ⟨?_, ?_⟩
        · intro b hb
          rcases List.mem_cons.1 hb with rfl | hb
          · exact hle
          · exact taskLE_trans t x b hle (hx b hb)
        · rw [List.pairwise_cons]
          exact ⟨hx, hxs⟩
      · rename_i hnle
        rw [List.pairwise_cons]
        refine ⟨?_, pairwise_insertTask t xs hxs⟩
        intro b hb
        rcases mem_insertTask hb with rfl | hb
        · rcases taskLE_total x b with h2 | h2
          · exact h2
          · exact (hnle h2).elim
        · exact hx b hb

theorem pairwise_sortTasks :
    ∀ (ts : List PrefetchTask),
      List.Pairwise (fun a b => taskLE a b = true) (sortTasks ts)
  | [] => by simp [sortTasks]
  | t :: ts => by
      rw [sortTasks, List.foldr_cons]
      exact pairwise_insertTask t _ (pairwise_sortTasks ts)

/-- C6 counterexample (values of test_prefetch_task_comparison): tasks of
equal priority and keys 1 and 3 are mutually unordered — the task with the
smaller key is not ordered first — while distinct priorities are ordered. -/
theorem claim6_counterexample :
    PrefetchTask.lt ⟨mkRat (-4) 5, 1⟩ ⟨mkRat (-4) 5, 3⟩ = false ∧
    PrefetchTask.lt ⟨mkRat (-4) 5, 3⟩ ⟨mkRat (-4) 5, 1⟩ = false ∧
    PrefetchTask.lt ⟨mkRat (-4) 5, 1⟩ ⟨mkRat (-1) 2, 2⟩ = true := by
  refine ⟨by decide, by decide, by decide⟩

/-- C6 (amended): the task order compares stored priorities only — so a
heap pops tasks in non-increasing urgency — and two tasks of equal
priority are mutually unordered whatever their keys; the deterministic tie
layout within one reconciliation comes from the queue construction
(`sortTasks` lays the rebuilt queue out with non-decreasing stored
priority), not from the task comparison. -/
theorem claim6_order_by_priority_only :
    (∀ a b : PrefetchTask, PrefetchTask.lt a b = true ↔ a.priority < b.priority) ∧
    (∀ ts : List PrefetchTask,
      List.Pairwise (fun a b => a.priority ≤ b.priority) (sortTasks ts)) := by
  refine ⟨?_, ?_⟩
  · intro a b
    simp [PrefetchTask.lt]
  · intro ts
    exact (pairwise_sortTasks ts).imp (fun h => taskLE_le h)

/-! ### History and predictor-call discipline -/

theorem prefixExtend {α : Type} {a b : List α} (t : List α) (h : a <+: b) :
    a <+: b ++ t := by
  obtain ⟨w, rfl⟩ := h
  exact ⟨w ++ t, (List.append_assoc a w t).symm⟩

theorem suffixExtendRight {α : Type} {a b : List α} (t : List α) (h : a <:+ b) :
    a ++ t <:+ b ++ t := by
  obtain ⟨w, rfl⟩ := h
  exact ⟨w, (List.append_assoc w a t).symm⟩

theorem suffixTrans {α : Type} {a b c : List α} (h1 : a <:+ b) (h2 : b <:+ c) :
    a <:+ c := by
  obtain ⟨w1, rfl⟩ := h1
  obtain ⟨w2, rfl⟩ := h2
  exact ⟨w2 ++ w1, List.append_assoc w2 w1 a⟩

theorem get_history {V : Type} (cfg : CacheConfig) (provider : Key → Except String V)
    (predictor : Key → List Key → Likelihoods) (st : CacheState V) (k : Key) :
    (get cfg provider predictor st k).2.history
      = historyPush cfg.historySize st.history k := by
  cases h0 : storeLookup st.store k with
  | some e => simp only [get, h0, schedule_history]
  | none =>
      cases hp : provider k with
      | error err => simp only [get, h0, hp]
      | ok v => simp only [get, h0, hp, schedule_history, insertAndEvict_history]

/-- Each `get` either leaves the predictor-call log unchanged (failed
load) or appends the one call it makes, passing the freshly pushed
history. -/
theorem get_predictorCalls {V : Type} (cfg : CacheConfig)
    (provider : Key → Except String V) (predictor : Key → List Key → Likelihoods)
    (st : CacheState V) (k : Key) :
    (get cfg provider predictor st k).2.predictorCalls = st.predictorCalls ∨
    (get cfg provider predictor st k).2.predictorCalls
      = st.predictorCalls ++ [(k, historyPush cfg.historySize st.history k)] := by
  cases h0 : storeLookup st.store k with
  | some e =>
      right
      simp only [get, h0, schedule_predictorCalls]
  | none =>
      cases hp : provider k with
      | error err =>
          left
          simp only [get, h0, hp]
      | ok v =>
          right
          simp only [get, h0, hp, schedule_predictorCalls, insertAndEvict_predictorCalls]

theorem runGets_predictorCalls_inv {V : Type} (cfg : CacheConfig)
    (provider : Key → Except String V) (predictor : Key → List Key → Likelihoods)
    (hH : 0 < cfg.historySize) :
    ∀ (ks : List Key) (st : CacheState V) (seen : List Key),
      st.history <:+ seen →
      (∀ p ∈ st.predictorCalls,
        p.2.length ≤ cfg.historySize ∧ p.2.getLast? = some p.1 ∧
        ∃ pf, pf <+: seen ∧ p.2 <:+ pf ∧ pf.getLast? = some p.1) →
      (runGets cfg provider predictor st ks).history <:+ (seen ++ ks) ∧
      (∀ p ∈ (runGets cfg provider predictor st ks).predictorCalls,
        p.2.length ≤ cfg.historySize ∧ p.2.getLast? = some p.1 ∧
        ∃ pf, pf <+: (seen ++ ks) ∧ p.2 <:+ pf ∧ pf.getLast? = some p.1)
  | [], st, seen, hhist, hcalls => by
      rw [runGets, List.append_nil]
      exact ⟨hhist, hcalls⟩
  | k :: ks, st, seen, hhist, hcalls => by
      rw [runGets]
      have hstep := runGets_predictorCalls_inv cfg provider predictor hH ks
        (get cfg provider predictor st k).2 (seen ++ [k]) ?_ ?_
      · rw [List.append_assoc] at hstep
        simpa using hstep
      · rw [get_history]
        exact suffixTrans (historyPush_suffix cfg.historySize st.history k)
          (suffixExtendRight [k] hhist)
      · intro p hp
        have hmono : ∀ q : Key × List Key,
            (q.2.length ≤ cfg.historySize ∧ q.2.getLast? = some q.1 ∧
              ∃ pf, pf <+: seen ∧ q.2 <:+ pf ∧ pf.getLast? = some q.1) →
            q.2.length ≤ cfg.historySize ∧ q.2.getLast? = some q.1 ∧
              ∃ pf, pf <+: (seen ++ [k]) ∧ q.2 <:+ pf ∧ pf.getLast? = some q.1 := by
          rintro q ⟨hq1, hq2, pf, hpf1, hpf2, hpf3⟩
          exact ⟨hq1, hq2, pf, prefixExtend [k] hpf1, hpf2, hpf3⟩
        rcases get_predictorCalls cfg provider predictor st k with hlog | hlog
        · rw [hlog] at hp
          exact hmono p (hcalls p hp)
        · rw [hlog] at hp
          rcases List.mem_append.1 hp with hp | hp
          · exact hmono p (hcalls p hp)
          · rcases List.mem_singleton.1 hp with rfl
            refine ⟨historyPush_length_le _ _ _, historyPush_getLast _ _ _ hH,
              seen ++ [k], ⟨[], List.append_nil _⟩, ?_, List.getLast?_concat _⟩
            exact suffixTrans (historyPush_suffix cfg.historySize st.history k)
              (suffixExtendRight [k] hhist)

/-- C7: the predictor is only ever called with a history of at most
`history_size` keys, holding the most recently requested keys newest-last:
every logged call `(c, h)` has `h` a suffix of the requests made so far (a
prefix `pf` of the run), ending in the current key `c`. -/
theorem claim7_predictor_history_bounded {V : Type} (cfg : CacheConfig)
    (provider : Key → Except String V) (predictor : Key → List Key → Likelihoods)
    (ks : List Key) (hH : 0 < cfg.historySize) :
    ∀ p ∈ (runGets cfg provider predictor (initState V) ks).predictorCalls,
      p.2.length ≤ cfg.historySize ∧ p.2.getLast? = some p.1 ∧
      ∃ pf, pf <+: ks ∧ p.2 <:+ pf ∧ pf.getLast? = some p.1 := by
  have h := runGets_predictorCalls_inv cfg provider predictor hH ks (initState V) []
    ⟨[], rfl⟩ (by intro p hp; simp [initState] at hp)
  simpa using h.2

/-- C7 witness: with `history_size = 2`, after `get 1; get 2` the logged
predictor call for current key 2 received the two-element history
`[1, 2]`, a bounded newest-last suffix of the request sequence. -/
theorem claim7_witness :
    (0 < (⟨2, 3, 2⟩ : CacheConfig).historySize ∧
      ((2 : Key), ([1, 2] : List Key)) ∈ (runGets (⟨2, 3, 2⟩ : CacheConfig)
        mockProvider3 mockPredictorDefault (initState Int) [1, 2]).predictorCalls) ∧
    (([1, 2] : List Key).length ≤ (⟨2, 3, 2⟩ : CacheConfig).historySize ∧
      ([1, 2] : List Key).getLast? = some 2 ∧
      ∃ pf, pf <+: ([1, 2] : List Key) ∧ ([1, 2] : List Key) <:+ pf ∧
        pf.getLast? = some 2) :=
  ⟨⟨by decide, by decide⟩,
    claim7_predictor_history_bounded (⟨2, 3, 2⟩ : CacheConfig) mockProvider3
      mockPredictorDefault [1, 2] (by decide) ((2 : Key), ([1, 2] : List Key))
      (by decide)⟩

/-- C8: a zero or negative bound — any of `max_keys_cached`,
`max_keys_prefetched`, `history_size` — is rejected at construction with an
error. -/
theorem claim8_rejects_nonpositive_bounds (a b c : Int)
    (h : a ≤ 0 ∨ b ≤ 0 ∨ c ≤ 0) :
    ∃ msg, mkCacheConfig a b c = Except.error msg := by
  rcases h with h | h | h
  · exact ⟨"max_keys_cached must be positive", by simp [mkCacheConfig, h]⟩
  · by_cases ha : a ≤ 0
    · exact ⟨"max_keys_cached must be positive", by simp [mkCacheConfig, ha]⟩
    · exact ⟨"max_keys_prefetched must be positive", by simp [mkCacheConfig, ha, h]⟩
  · by_cases ha : a ≤ 0
    · exact ⟨"max_keys_cached must be positive", by simp [mkCacheConfig, ha]⟩
    · by_cases hb : b ≤ 0
      · exact ⟨"max_keys_prefetched must be positive", by simp [mkCacheConfig, ha, hb]⟩
      · exact ⟨"history_size must be positive", by simp [mkCacheConfig, ha, hb, h]⟩

/-- C8 witness: `max_keys_cached = 0` (with the other bounds at their
defaults) is rejected. -/
theorem claim8_witness :
    ((0 : Int) ≤ 0 ∨ (16 : Int) ≤ 0 ∨ (10 : Int) ≤ 0) ∧
    (∃ msg, mkCacheConfig 0 16 10 = Except.error msg) :=
  ⟨Or.inl (by decide),
    claim8_rejects_nonpositive_bounds 0 16 10 (Or.inl (by decide))⟩

/-- C9: a `CacheEntry` built without a timestamp (the falsy `0`) gets the
current clock reading, so its timestamp lies between any clock readings
bracketing the construction; a supplied nonzero timestamp is stored
unchanged. -/
theorem claim9_timestamp_auto_assigned {V : Type} (v : V)
    (ts before now after : Rat) (h1 : before ≤ now) (h2 : now ≤ after) :
    (before ≤ (CacheEntry.create v 0 now).timestamp ∧
      (CacheEntry.create v 0 now).timestamp ≤ after) ∧
    (ts ≠ 0 → (CacheEntry.create v ts now).timestamp = ts) := by
  refine ⟨?_, ?_⟩
  · simp only [CacheEntry.create, if_pos rfl]
    exact ⟨h1, h2⟩
  · intro hts
    simp [CacheEntry.create, hts]

/-- C9 witness: auto-assignment lands between the bracketing readings 1
and 3 when the clock reads 2, and the explicit timestamp 7 is kept. -/
theorem claim9_witness :
    ((1 : Rat) ≤ 2 ∧ (2 : Rat) ≤ 3) ∧
    ((1 ≤ (CacheEntry.create (5 : Int) 0 2).timestamp ∧
        (CacheEntry.create (5 : Int) 0 2).timestamp ≤ 3) ∧
      ((7 : Rat) ≠ 0 → (CacheEntry.create (5 : Int) 7 2).timestamp = 7)) :=
  ⟨⟨by decide, by decide⟩,
    claim9_timestamp_auto_assigned (5 : Int) 7 1 2 3 (by decide) (by decide)⟩

end DynamicPrefetchingCache
